import Mathlib

/-!
Shallow embedding of the Forsp interpreter (losinggeneration/forsp-go,
src/forsp/forsp.go) and proofs about its reader, printer, environment,
evaluator and primitive library.

Conventions of the embedding:
* Go int64 values are modelled as Int together with explicit two's-complement
  wrapping (wrap64) wherever the Go code relies on the fixed width.
* The reader's input is the list of not-yet-consumed characters (the Go code
  keeps the whole string plus a forward-only cursor; only the suffix after the
  cursor is ever inspected).  Character classes are stated on ASCII codes.
* Atoms are interned in the Go program (every atom object is created through
  intern), so two atom objects are the same Go object exactly when their texts
  are equal; the deep embedding therefore represents an atom by its text.
  The address-level facts about EnvFind are studied on a separate model that
  keeps object addresses and payload pointers explicit.
* Partiality (panic / fail in Go) is modelled with Except; unbounded mutual
  recursion (read and readList, eval and computeEnv) gets an explicit fuel
  parameter, and running out of fuel is an error distinct from every Go
  failure.
-/

namespace Forsp

/-- The primitive operations installed into the initial environment by New
(src/forsp/forsp.go, lines 530-549). -/
inductive PrimOp where
  | push | pop | cons | car | cdr | eq | cswap | tag | read | print
  | stack | env | sub | mul | nand | lsh | rsh
deriving DecidableEq

/-- Tagged object values (src/forsp/forsp.go, lines 20-41).  The closure
variant stores the captured body and environment; a primitive stores which of
the fixed host operations it denotes. -/
inductive Obj where
  | nil
  | atom (text : String)
  | number (n : Int)
  | pair (a d : Obj)
  | closure (body enc : Obj)
  | prim (p : PrimOp)
deriving DecidableEq

/-- Numeric tag of each variant: the iota constants TagNil .. TagPrimitive are
0,1,2,3,4,5 (src/forsp/forsp.go, lines 9-18). -/
def tagOfObj : Obj → Int
  | .nil => 0
  | .atom _ => 1
  | .number _ => 2
  | .pair _ _ => 3
  | .closure _ _ => 4
  | .prim _ => 5

/-- 2^63 as an integer. -/
def two63 : Int := 9223372036854775808

/-- 2^64 as an integer. -/
def two64 : Int := 18446744073709551616

/-- 2^63 as a natural number. -/
def two63N : Nat := 9223372036854775808

/-- 2^64 as a natural number. -/
def two64N : Nat := 18446744073709551616

/-- Reduction of an unbounded integer to the int64 value with the same
low 64 bits: the wrapping that Go's typed int64 arithmetic performs. -/
def wrap64 (n : Int) : Int := (n + two63) % two64 - two63

/-- The Go conversion uint(b) applied to an int64 b: the two's-complement
bit pattern read as an unsigned 64-bit number. -/
def goUint64 (b : Int) : Nat := (b % two64).toNat

/-- The Go expression a << uint(b) at type int64 (primLsh, line 507): left
shifts are logical, the int64 result keeps the low 64 bits.  A shift count
of 64 or more yields 0, which the wrapping also produces. -/
def goLsh (a b : Int) : Int := wrap64 (a * 2 ^ goUint64 b)

/-- The Go expression a >> uint(b) at type int64 (primRsh, line 512): the
right shift of a signed operand is arithmetic, i.e. it floors a / 2^s; Go
defines counts of 64 and more as repeated shifting, which floor division by
2^s also matches (0 for nonnegative a, -1 for negative a). -/
def goRsh (a b : Int) : Int := Int.fdiv a (2 ^ goUint64 b)

/-- ObjToInt64 (lines 169-175): the value of a Number, 0 for anything else. -/
def objToInt64 : Obj → Int
  | .number n => n
  | _ => 0

/-- ObjEqual (lines 165-167): shallow Go struct equality of the two objects,
or both Numbers with equal value.  In the deep embedding the struct equality
of interned atoms and of the unique nil is text/constructor equality; for the
payload-pointer comparison of distinct pairs or closures the deep equality is
coarser, a case no theorem below depends on. -/
def objEqual (a b : Obj) : Bool :=
  a == b ||
    (match a, b with
     | .number x, .number y => x == y
     | _, _ => false)

/-- Fatal failures of the interpreter, plus the out-of-fuel artifact of the
embedding (the Go program would simply keep running). -/
inductive Err where
  | eofRead
  | carNonPair
  | cdrNonPair
  | keyNotAtom
  | unboundSymbol
  | underflow
  | danglingQuote
  | outOfFuel
deriving DecidableEq

/-- isWhite (line 190): space, tab, newline (ASCII 32, 9, 10). -/
def isWhite (c : Char) : Bool := c.toNat == 32 || c.toNat == 9 || c.toNat == 10

/-- isDirective (line 192): the three reader prefixes, ASCII 39 (single
quote), 94 (caret), 36 (dollar). -/
def isDirective (c : Char) : Bool := c.toNat == 39 || c.toNat == 94 || c.toNat == 36

/-- isPunctuation (lines 194-196): NUL (the end-of-input sentinel byte),
whitespace, a directive, parenthesis 40/41, or semicolon 59. -/
def isPunct (c : Char) : Bool :=
  c.toNat == 0 || isWhite c || isDirective c ||
    c.toNat == 40 || c.toNat == 41 || c.toNat == 59

/-- Decimal digit test, ASCII 48-57 (strconv.ParseInt accepts only these in
base 10). -/
def isDigitCh (c : Char) : Bool := 48 ≤ c.toNat && c.toNat ≤ 57

/-- Numeric value of a decimal digit character. -/
def digitVal (c : Char) : Nat := c.toNat - 48

/-- Value of a digit string, most significant digit first. -/
def decVal (l : List Char) : Nat := l.foldl (fun a c => a * 10 + digitVal c) 0

/-- strconv.ParseInt(str, 10, 64) as used by parseInt64 (lines 245-248):
an optional single sign, then at least one decimal digit and nothing else,
and the signed value must fit in int64; anything else is an error, which
readScalar turns into an atom. -/
def goParseInt64 (l : List Char) : Option Int :=
  match l with
  | [] => none
  | c :: rest =>
    let p : Bool × List Char :=
      if c.toNat == 45 then (true, rest)
      else if c.toNat == 43 then (false, rest)
      else (false, l)
    if p.2.isEmpty || !p.2.all isDigitCh then none
    else
      let v : Int := if p.1 then -(decVal p.2 : Int) else (decVal p.2 : Int)
      if -two63 ≤ v && v < two63 then some v else none

/-- Reader state: the not-yet-consumed input characters and the read-ahead
queue readStack (Go nil pointer = empty list, otherwise the Pair chain built
by the caret and dollar directives, front first). -/
structure RState where
  inp : List Char
  queue : List Obj
deriving DecidableEq

/-- skipWhiteAndComments (lines 198-228), written as a single left-to-right
scan; the flag records whether the scan is inside a semicolon comment (the
for-loop of the source).  A NUL byte stops the scan exactly as the c == 0
checks of the source do. -/
def skipWCAux : Bool → List Char → List Char
  | _, [] => []
  | true, c :: rest =>
    if c.toNat == 0 then c :: rest
    else if c.toNat == 10 then skipWCAux false rest
    else skipWCAux true rest
  | false, c :: rest =>
    if c.toNat == 0 then c :: rest
    else if isWhite c then skipWCAux false rest
    else if c.toNat == 59 then skipWCAux true rest
    else c :: rest

/-- Whitespace and comment skipping, started outside a comment. -/
def skipWC (l : List Char) : List Char := skipWCAux false l

/-- readScalar (lines 250-265): scan the maximal run of non-punctuation
characters; a token that parses as an int64 becomes a Number, any other
token is interned as an Atom. -/
def readScalar (inp : List Char) : Obj × List Char :=
  let tok := inp.takeWhile (fun c => !isPunct c)
  let rest := inp.dropWhile (fun c => !isPunct c)
  match goParseInt64 tok with
  | some n => (Obj.number n, rest)
  | none => (Obj.atom (String.mk tok), rest)

/-- The mutually recursive pair Read (lines 267-316) and readList
(lines 230-243) as one function over a mode flag, so that the recursion is
structural on the fuel and the definition evaluates inside the kernel.

Mode false is Read: a pending read-ahead queue is drained first; then after
whitespace/comment skipping the reader dispatches on the next byte: 0 is end
of input, 39 (the quote directive) yields the interned quote atom, 94 (caret)
and 36 (dollar) queue quote / scalar / push-or-pop and re-enter Read, 40
starts a list, everything else is a scalar.

Mode true is readList: only when no read-ahead is pending may a closing
parenthesis 41 (after whitespace skipping) end the list as nil; otherwise one
element is read and the rest of the list follows. -/
def readF (fuel : Nat) (isList : Bool) (s : RState) : Except Err (Obj × RState) :=
  match fuel with
  | 0 => .error .outOfFuel
  | fuel + 1 =>
    if isList then
      match s.queue with
      | [] =>
        match skipWC s.inp with
        | c :: rest =>
          if c.toNat == 41 then .ok (Obj.nil, ⟨rest, []⟩)
          else
            match readF fuel false ⟨c :: rest, []⟩ with
            | .error e => .error e
            | .ok (first, s2) =>
              match readF fuel true s2 with
              | .error e => .error e
              | .ok (second, s3) => .ok (Obj.pair first second, s3)
        | [] =>
          match readF fuel false ⟨[], []⟩ with
          | .error e => .error e
          | .ok (first, s2) =>
            match readF fuel true s2 with
            | .error e => .error e
            | .ok (second, s3) => .ok (Obj.pair first second, s3)
      | _ :: _ =>
        match readF fuel false s with
        | .error e => .error e
        | .ok (first, s2) =>
          match readF fuel true s2 with
          | .error e => .error e
          | .ok (second, s3) => .ok (Obj.pair first second, s3)
    else
      match s.queue with
      | q :: qs => .ok (q, ⟨s.inp, qs⟩)
      | [] =>
        match skipWC s.inp with
        | [] => .error .eofRead
        | c :: rest =>
          if c.toNat == 0 then .error .eofRead
          else if c.toNat == 39 then .ok (Obj.atom "quote", ⟨rest, []⟩)
          else if c.toNat == 94 then
            let sc := readScalar rest
            readF fuel false ⟨sc.2, [Obj.atom "quote", sc.1, Obj.atom "push"]⟩
          else if c.toNat == 36 then
            let sc := readScalar rest
            readF fuel false ⟨sc.2, [Obj.atom "quote", sc.1, Obj.atom "pop"]⟩
          else if c.toNat == 40 then
            readF fuel true ⟨rest, []⟩
          else
            let sc := readScalar (c :: rest)
            .ok (sc.1, ⟨sc.2, []⟩)

/-- Read (lines 267-316). -/
def read (fuel : Nat) (s : RState) : Except Err (Obj × RState) := readF fuel false s

/-- readList (lines 230-243). -/
def readList (fuel : Nat) (s : RState) : Except Err (Obj × RState) := readF fuel true s

/-- Decimal digits of a natural number, most significant first (one digit for
values below ten). -/
def natToDec (n : Nat) : List Char :=
  if h : n < 10 then [Char.ofNat (48 + n)]
  else natToDec (n / 10) ++ [Char.ofNat (48 + n % 10)]
decreasing_by exact Nat.div_lt_self (by omega) (by omega)

/-- Decimal rendering of an int64 as produced by fmt.Print on a Number
(sign, then digits), matching strconv.FormatInt. -/
def intToDec (n : Int) : List Char :=
  if n < 0 then Char.ofNat 45 :: natToDec (-n).toNat else natToDec n.toNat

/-- The mutually recursive pair PrintRecurse (lines 335-360, mode false) and
printListTail (lines 318-333, mode true) as one structurally recursive
function over a mode flag; the dotted-tail branch of printListTail, which
re-renders the same object in the other mode, is expanded per variant so
that every recursive call is on a subobject.  The interpreter has a unique
nil object, which the embedding's nil constructor is, so the identity test
against it is the nil case.  Closures and primitives print machine addresses
via the %p verb; the address digits are abstracted to a question mark, which
no theorem below depends on. -/
def printF : Bool → Obj → List Char
  | false, .nil => ['(', ')']
  | false, .atom s => s.toList
  | false, .number n => intToDec n
  | false, .pair a d => '(' :: (printF false a ++ printF true d)
  | false, .closure b _ =>
    ('C' :: 'L' :: 'O' :: 'S' :: 'U' :: 'R' :: 'E' :: '<' :: printF false b) ++ [',', ' ', '?', '>']
  | false, .prim _ => ['P', 'R', 'I', 'M', '<', '?', '>']
  | true, .nil => [')']
  | true, .pair a d => ' ' :: (printF false a ++ printF true d)
  | true, .atom s => ' ' :: '.' :: ' ' :: (s.toList ++ [')'])
  | true, .number n => ' ' :: '.' :: ' ' :: (intToDec n ++ [')'])
  | true, .closure b _ =>
    ' ' :: '.' :: ' ' ::
      ((('C' :: 'L' :: 'O' :: 'S' :: 'U' :: 'R' :: 'E' :: '<' :: printF false b) ++ [',', ' ', '?', '>']) ++ [')'])
  | true, .prim _ => ' ' :: '.' :: ' ' :: (['P', 'R', 'I', 'M', '<', '?', '>'] ++ [')'])

/-- PrintRecurse (lines 335-360). -/
def printRec (o : Obj) : List Char := printF false o

/-- printListTail (lines 318-333). -/
def printListTail (o : Obj) : List Char := printF true o

/-- Interpreter state outside the environment: the value stack (a Pair chain
ending in nil, as in the source), the reader state shared with the read
primitive, and the characters printed so far. -/
structure IState where
  stack : Obj
  rdr : RState
  out : List Char
deriving DecidableEq

/-- car (lines 155-158): fails on a non-Pair. -/
def carObj : Obj → Except Err Obj
  | .pair a _ => .ok a
  | _ => .error .carNonPair

/-- cdr (lines 160-163): fails on a non-Pair. -/
def cdrObj : Obj → Except Err Obj
  | .pair _ d => .ok d
  | _ => .error .cdrNonPair

/-- Pop (lines 395-412): stack underflow on the nil stack, otherwise the car
and the remaining cdr (a non-Pair non-nil stack would make car fail). -/
def popObj : Obj → Except Err (Obj × Obj)
  | .nil => .error .underflow
  | .pair a d => .ok (a, d)
  | _ => .error .carNonPair

/-- The scan loop of EnvFind (lines 372-377) over the binding list: the key
of a binding matches when it is the same object or the dereferenced Obj
structs are equal; for the interned atoms of the running program both
comparisons are text equality, which deep equality is.  The address-level
behaviour of the same comparison is studied separately on the AtomObj model
below. -/
def envLookup (env key : Obj) : Except Err Obj :=
  match env with
  | .nil => .error .unboundSymbol
  | .pair kv rest =>
    match kv with
    | .pair k v => if k = key then .ok v else envLookup rest key
    | _ => .error .carNonPair
  | _ => .error .cdrNonPair

/-- EnvFind (lines 367-381): the key must be an Atom, then the binding list
is scanned front to back; exhausting it is the undefined-symbol failure. -/
def envFind (env key : Obj) : Except Err Obj :=
  match key with
  | .atom _ => envLookup env key
  | _ => .error .keyNotAtom

/-- EnvDefine (lines 383-385): prepend one (key . value) binding pair. -/
def envDefine (env key val : Obj) : Obj := .pair (.pair key val) env

/-- One primitive invocation (lines 450-513).  Each returns the possibly
rebound environment (only pop rebinds it) and the new interpreter state.
Binary numeric primitives pop b first and a second; cons pops a first and
b second, exactly as the source does. -/
def primStep (fuel : Nat) (p : PrimOp) (env : Obj) (st : IState) :
    Except Err (Obj × IState) :=
  match p with
  | .push => do
    let ks ← popObj st.stack
    let v ← envFind env ks.1
    .ok (env, { st with stack := .pair v ks.2 })
  | .pop => do
    let ks ← popObj st.stack
    let vs ← popObj ks.2
    .ok (envDefine env ks.1 vs.1, { st with stack := vs.2 })
  | .cons => do
    let as0 ← popObj st.stack
    let bs ← popObj as0.2
    .ok (env, { st with stack := .pair (.pair as0.1 bs.1) bs.2 })
  | .car => do
    let xs ← popObj st.stack
    let a ← carObj xs.1
    .ok (env, { st with stack := .pair a xs.2 })
  | .cdr => do
    let xs ← popObj st.stack
    let d ← cdrObj xs.1
    .ok (env, { st with stack := .pair d xs.2 })
  | .eq => do
    let xs ← popObj st.stack
    let ys ← popObj xs.2
    .ok (env, { st with stack := .pair (if objEqual xs.1 ys.1 then .atom "t" else .nil) ys.2 })
  | .cswap => do
    let cs ← popObj st.stack
    if cs.1 = Obj.atom "t" then do
      let as0 ← popObj cs.2
      let bs ← popObj as0.2
      .ok (env, { st with stack := .pair bs.1 (.pair as0.1 bs.2) })
    else
      .ok (env, { st with stack := cs.2 })
  | .tag => do
    let xs ← popObj st.stack
    .ok (env, { st with stack := .pair (.number (tagOfObj xs.1)) xs.2 })
  | .read => do
    let or2 ← read fuel st.rdr
    .ok (env, { st with stack := .pair or2.1 st.stack, rdr := or2.2 })
  | .print => do
    let xs ← popObj st.stack
    .ok (env, { st with stack := xs.2, out := st.out ++ printRec xs.1 ++ [Char.ofNat 10] })
  | .stack => .ok (env, { st with stack := .pair st.stack st.stack })
  | .env => .ok (env, { st with stack := .pair env st.stack })
  | .sub => do
    let bs ← popObj st.stack
    let as0 ← popObj bs.2
    .ok (env, { st with stack := .pair (.number (wrap64 (objToInt64 as0.1 - objToInt64 bs.1))) as0.2 })
  | .mul => do
    let bs ← popObj st.stack
    let as0 ← popObj bs.2
    .ok (env, { st with stack := .pair (.number (wrap64 (objToInt64 as0.1 * objToInt64 bs.1))) as0.2 })
  | .nand => do
    let bs ← popObj st.stack
    let as0 ← popObj bs.2
    .ok (env, { st with stack := .pair (.number (wrap64 (-(Int.land (objToInt64 as0.1) (objToInt64 bs.1)) - 1))) as0.2 })
  | .lsh => do
    let bs ← popObj st.stack
    let as0 ← popObj bs.2
    .ok (env, { st with stack := .pair (.number (goLsh (objToInt64 as0.1) (objToInt64 bs.1))) as0.2 })
  | .rsh => do
    let bs ← popObj st.stack
    let as0 ← popObj bs.2
    .ok (env, { st with stack := .pair (.number (goRsh (objToInt64 as0.1) (objToInt64 bs.1))) as0.2 })

/-- The mutually recursive pair ComputeEnv (lines 414-431, mode false) and
eval (lines 433-448, mode true) as one function over a mode flag, the
recursion structural on the fuel (each step, loop iteration included, spends
one unit; running out of fuel is the embedding's artifact for a computation
still running).  Both modes return the current environment with the state;
ComputeEnv's caller discards it, matching the Go by-value env parameter.

Mode false, x the computation list: walk it; the interned quote atom pushes
the following item literally and consumes both (failing when no item
follows); every other item is evaluated, and the environment possibly
rebound by a primitive is carried to the remaining items.

Mode true, x the expression: an atom is looked up; a bound closure runs its
body in its captured environment by a nested computation whose resulting
environment is discarded (the caller's environment reference is returned
unchanged); a bound primitive may rebind the caller's environment; any other
bound value is pushed.  A nil or pair expression becomes a closure capturing
the current environment; numbers, closures and primitives push themselves. -/
def execF : Nat → Bool → Obj → Obj → IState → Except Err (Obj × IState)
  | 0, _, _, _, _ => .error .outOfFuel
  | fuel + 1, true, .atom t, env, st =>
    (match envFind env (.atom t) with
     | .error e => .error e
     | .ok val =>
       match val with
       | .closure body cenv =>
         (match execF fuel false body cenv st with
          | .error e => .error e
          | .ok r => .ok (env, r.2))
       | .prim p => primStep fuel p env st
       | v => .ok (env, { st with stack := .pair v st.stack }))
  | _ + 1, true, .nil, env, st =>
    .ok (env, { st with stack := .pair (.closure .nil env) st.stack })
  | _ + 1, true, .pair a d, env, st =>
    .ok (env, { st with stack := .pair (.closure (.pair a d) env) st.stack })
  | _ + 1, true, x, env, st => .ok (env, { st with stack := .pair x st.stack })
  | _ + 1, false, .nil, env, st => .ok (env, st)
  | fuel + 1, false, .pair cmd rest, env, st =>
    if cmd = Obj.atom "quote" then
      match rest with
      | .nil => .error .danglingQuote
      | .pair y rest2 => execF fuel false rest2 env { st with stack := .pair y st.stack }
      | _ => .error .carNonPair
    else
      match execF fuel true cmd env st with
      | .error e => .error e
      | .ok r => execF fuel false rest r.1 r.2
  | _ + 1, false, _, _, _ => .error .carNonPair

/-- ComputeEnv (lines 414-431): the environment is received by value, so the
caller observes only the state. -/
def computeEnv (fuel : Nat) (comp env : Obj) (st : IState) : Except Err IState :=
  (execF fuel false comp env st).map (fun r => r.2)

/-- eval (lines 433-448): returns the possibly rebound environment reference
together with the state. -/
def eval (fuel : Nat) (expr env : Obj) (st : IState) : Except Err (Obj × IState) :=
  execF fuel true expr env st

/-- The dereferenced value of a Go Obj struct (lines 33-41): six payload
pointers, of which well-formed objects have exactly one non-nil, and the tag.
0 encodes the Go nil pointer.  Go equality on two dereferenced Obj structs
compares exactly these seven fields; the text behind an Atom pointer is never
read by the comparison. -/
structure GoObjVal where
  pNil : Nat
  pAtom : Nat
  pNumber : Nat
  pPair : Nat
  pClosure : Nat
  pPrimitive : Nat
  tag : Nat
deriving DecidableEq

/-- The Obj struct built by NewAtom (lines 85-87): tag TagAtom (value 1) and a
freshly allocated Atom payload, all other pointers nil. -/
def mkAtomVal (payloadAddr : Nat) : GoObjVal :=
  ⟨0, payloadAddr, 0, 0, 0, 0, 1⟩

/-- An atom object as EnvFind sees it at the machine level: the address of
the Obj itself, the dereferenced struct value, and the text stored in the
Atom payload cell. -/
structure AtomObj where
  addr : Nat
  val : GoObjVal
  text : String
deriving DecidableEq

/-- The binding scan of EnvFind (lines 372-377) at the machine level, for an
environment whose keys are atom objects: a binding matches when the key is
the identical object (address equality) or the dereferenced Obj structs are
equal field by field.  Binding values are abstracted to numbers, which the
comparison never inspects. -/
def envFindA : List (AtomObj × Nat) → AtomObj → Option Nat
  | [], _ => none
  | (k, v) :: rest, key =>
    if key.addr = k.addr ∨ key.val = k.val then some v else envFindA rest key

/-- The 64-bit pattern of an int64: its value modulo 2^64. -/
def toU64 (n : Int) : Nat := (n % two64).toNat

/-- The int64 with a given 64-bit pattern. -/
def toS64 (u : Nat) : Int := if u < two63N then (u : Int) else (u : Int) - two64

/-- Modelled from the spec words for the shift table (logical shift of a by
b bits): the 64-bit pattern of a shifted right by b with zero fill, read
back as an int64.  This is the behaviour the spec asserts for the right-shift
primitive; the code's behaviour is goRsh. -/
def specLogicalRsh (a : Int) (b : Nat) : Int := toS64 (toU64 a >>> b)

/-- The objects the reader produces from well-formed input (mode false) and
the tails of reader-produced lists (mode true), as one structurally
recursive function: numbers in int64 range (the parser enforces the range),
atoms whose nonempty text contains no punctuation character and does not
parse as an int64 (the scanner stops at punctuation and only parse failures
become atoms; an empty token arises only from ill-formed input such as a
stray closing parenthesis or a directive not followed by a scalar), and
proper lists of such objects (readList always terminates its chain with
nil, so a tail is nil or a further element and tail). -/
def goodF : Bool → Obj → Bool
  | false, .nil => true
  | false, .atom s => !s.toList.isEmpty && s.toList.all (fun c => !isPunct c) &&
      (goParseInt64 s.toList).isNone
  | false, .number n => decide (-two63 ≤ n) && decide (n < two63)
  | false, .pair a d => goodF false a && goodF true d
  | false, .closure _ _ => false
  | false, .prim _ => false
  | true, .nil => true
  | true, .pair a d => goodF false a && goodF true d
  | true, _ => false

/-- Reader-producible objects. -/
def goodVal (o : Obj) : Bool := goodF false o

/-- Tails of reader-producible lists. -/
def goodTail (o : Obj) : Bool := goodF true o

/-- Node count of an object, used to budget reader fuel. -/
def osize : Obj → Nat
  | .pair a d => osize a + osize d + 1
  | .closure a d => osize a + osize d + 1
  | _ => 1

/-- A character list whose head terminates a scalar token: empty (the Go
reader then peeks the NUL sentinel, which is punctuation) or headed by a
punctuation character. -/
def headPunct : List Char → Bool
  | [] => true
  | c :: _ => isPunct c

/-- Equality of Except values is decidable when both component types have
decidable equality; needed to evaluate the interpreter on closed inputs. -/
instance exceptDecEq {ε α : Type} [DecidableEq ε] [DecidableEq α] :
    DecidableEq (Except ε α) := fun a b =>
  match a, b with
  | .error e, .error f =>
    if h : e = f then .isTrue (congrArg Except.error h)
    else .isFalse (fun c => h (Except.error.inj c))
  | .ok x, .ok y =>
    if h : x = y then .isTrue (congrArg Except.ok h)
    else .isFalse (fun c => h (Except.ok.inj c))
  | .error _, .ok _ => .isFalse (fun c => Except.noConfusion c)
  | .ok _, .error _ => .isFalse (fun c => Except.noConfusion c)

/-- Reduction of an Except bind on a success value. -/
theorem except_bind_ok {ε α β : Type} (x : α) (f : α → Except ε β) :
    (Except.ok x >>= f) = f x := rfl

/-- Reduction of an Except map on a success value. -/
theorem except_map_ok {ε α β : Type} (x : α) (f : α → β) :
    Except.map f (Except.ok x : Except ε α) = .ok (f x) := rfl

/-- Reduction of an Except map on an error value. -/
theorem except_map_error {ε α β : Type} (e : ε) (f : α → β) :
    Except.map f (Except.error e : Except ε α) = .error e := rfl

end Forsp

namespace Forsp

/-- C1: the claim reads the source operand order of primCons as popping b
first; the source pops a first (a, b := Pop(), Pop()), so on a stack holding
2 on top of 1 the primitive pushes the pair (2 . 1) with the first-popped 2
as the car, not the pair (1 . 2) the claim predicts. -/
theorem claim_C1_counterexample :
    primStep 1 .cons .nil ⟨.pair (.number 2) (.pair (.number 1) .nil), ⟨[], []⟩, []⟩
      = .ok (.nil, ⟨.pair (.pair (.number 2) (.number 1)) .nil, ⟨[], []⟩, []⟩)
    ∧ Obj.pair (.number 2) (.number 1) ≠ Obj.pair (.number 1) (.number 2) := by
  decide

/-- C1 (amended): for every stack whose top two elements are y (top) and x
(below), the cons primitive pops a = y first and b = x second and pushes the
pair (a . b) = (y . x): the first-popped element becomes the car of the
resulting pair, with the rest of the stack unchanged. -/
theorem claim_C1 (fuel : Nat) (x y rest env : Obj) (r : RState) (o : List Char) :
    primStep fuel .cons env ⟨.pair y (.pair x rest), r, o⟩
      = .ok (env, ⟨.pair (.pair y x) rest, r, o⟩) := by
  simp [primStep, popObj, except_bind_ok]

/-- Every object has at least one node. -/
theorem osize_pos (v : Obj) : 1 ≤ osize v := by
  cases v <;> simp [osize]

/-- A non-punctuation character fails each dispatch test of the reader. -/
theorem not_punct_facts {c : Char} (h : isPunct c = false) :
    (c.toNat == 0) = false ∧ isWhite c = false ∧ (c.toNat == 39) = false
    ∧ (c.toNat == 94) = false ∧ (c.toNat == 36) = false ∧ (c.toNat == 40) = false
    ∧ (c.toNat == 41) = false ∧ (c.toNat == 59) = false := by
  simp [isPunct, isWhite, isDirective] at h ⊢
  omega

/-- A decimal digit is not punctuation. -/
theorem digit_not_punct {c : Char} (h : isDigitCh c = true) : isPunct c = false := by
  simp [isDigitCh] at h
  simp [isPunct, isWhite, isDirective]
  omega

/-- A decimal digit is not a sign character. -/
theorem digit_not_sign {c : Char} (h : isDigitCh c = true) :
    (c.toNat == 45) = false ∧ (c.toNat == 43) = false := by
  simp [isDigitCh] at h
  simp only [beq_eq_false_iff_ne, ne_eq]
  omega

/-- Skipping whitespace and comments does nothing before a character that is
neither NUL, whitespace nor a semicolon. -/
theorem skipWC_noop {c : Char} (l : List Char) (h0 : (c.toNat == 0) = false)
    (hw : isWhite c = false) (hs : (c.toNat == 59) = false) :
    skipWC (c :: l) = c :: l := by
  simp [skipWC, skipWCAux, h0, hw, hs]

/-- Skipping whitespace passes over a leading space. -/
theorem skipWC_space (l : List Char) : skipWC (' ' :: l) = skipWC l := by
  have h0 : ((' ').toNat == 0) = false := by decide
  have hw : isWhite ' ' = true := by decide
  simp [skipWC, skipWCAux, h0, hw]

/-- The scalar scanner takes nothing from a list whose head terminates a
token. -/
theorem takeWhile_headPunct {rest : List Char} (h : headPunct rest = true) :
    rest.takeWhile (fun c => !isPunct c) = [] := by
  cases rest with
  | nil => rfl
  | cons c t =>
    simp [headPunct] at h
    simp [List.takeWhile_cons, h]

/-- The scalar scanner drops nothing from a list whose head terminates a
token. -/
theorem dropWhile_headPunct {rest : List Char} (h : headPunct rest = true) :
    rest.dropWhile (fun c => !isPunct c) = rest := by
  cases rest with
  | nil => rfl
  | cons c t =>
    simp [headPunct] at h
    simp [List.dropWhile_cons, h]

/-- Rebuilding a string from its characters gives the same string. -/
theorem string_mk_toList (s : String) : String.mk s.toList = s := rfl

/-- The digit characters written by the decimal printer: code point, digit
class and numeric value. -/
theorem digitChar_facts {k : Nat} (h : k < 10) :
    (Char.ofNat (48 + k)).toNat = 48 + k
    ∧ isDigitCh (Char.ofNat (48 + k)) = true
    ∧ digitVal (Char.ofNat (48 + k)) = k := by
  interval_cases k <;> exact ⟨by decide, by decide, by decide⟩

/-- The decimal digits of a natural number are nonempty, all digits, and
fold back to the number under the parser's accumulator. -/
theorem natToDec_spec (m : Nat) :
    natToDec m ≠ [] ∧ (natToDec m).all isDigitCh = true
    ∧ ∀ acc, List.foldl (fun a c => a * 10 + digitVal c) acc (natToDec m)
        = acc * 10 ^ (natToDec m).length + m := by
  induction m using Nat.strong_induction_on with
  | _ m ih =>
    rw [natToDec]
    split_ifs with h
    · obtain ⟨_, h2, h3⟩ := digitChar_facts h
      refine ⟨by simp, by simp [h2], fun acc => ?_⟩
      simp [h3]
    · have hm : m / 10 < m := Nat.div_lt_self (by omega) (by omega)
      obtain ⟨h1, h2, h3⟩ := ih (m / 10) hm
      have hd : m % 10 < 10 := Nat.mod_lt _ (by omega)
      obtain ⟨hd1, hd2, hd3⟩ := digitChar_facts hd
      refine ⟨by simp, by simp [h2, hd2], fun acc => ?_⟩
      rw [List.foldl_append, h3]
      simp only [List.foldl, hd3, List.length_append, List.length_cons,
        List.length_nil]
      have hmm : m / 10 * 10 + m % 10 = m := by omega
      have hstep : (acc * 10 ^ (natToDec (m / 10)).length + m / 10) * 10 + m % 10
          = acc * (10 ^ (natToDec (m / 10)).length * 10) + (m / 10 * 10 + m % 10) := by
        ring
      rw [hstep, hmm, pow_succ]

/-- Folding the digits from a zero accumulator recovers the number. -/
theorem decVal_natToDec (m : Nat) : decVal (natToDec m) = m := by
  have h := (natToDec_spec m).2.2 0
  simpa [decVal] using h

/-- Every character the decimal printer writes continues a scalar token. -/
theorem intToDec_all_not_punct (n : Int) :
    (intToDec n).all (fun c => !isPunct c) = true := by
  have hdig : ∀ m : Nat, (natToDec m).all (fun c => !isPunct c) = true := by
    intro m
    have h := (natToDec_spec m).2.1
    simp only [List.all_eq_true] at h ⊢
    intro c hc
    simp [digit_not_punct (h c hc)]
  unfold intToDec
  split_ifs with h
  · simp only [List.all_cons, Bool.and_eq_true]
    exact ⟨by decide, hdig _⟩
  · exact hdig _

/-- The head of a printed number: a sign or a digit, never punctuation. -/
theorem intToDec_head (n : Int) :
    ∃ c t, intToDec n = c :: t ∧ isPunct c = false := by
  unfold intToDec
  split_ifs with h
  · exact ⟨_, _, rfl, by decide⟩
  · cases hL : natToDec n.toNat with
    | nil => exact absurd hL (natToDec_spec _).1
    | cons c t =>
      refine ⟨c, t, rfl, ?_⟩
      have hall := (natToDec_spec n.toNat).2.1
      rw [hL] at hall
      simp only [List.all_cons, Bool.and_eq_true] at hall
      exact digit_not_punct hall.1

/-- Parsing the printed decimal of an in-range int64 recovers the value. -/
theorem parse_intToDec (n : Int) (h1 : -two63 ≤ n) (h2 : n < two63) :
    goParseInt64 (intToDec n) = some n := by
  unfold intToDec
  split_ifs with hn
  · cases hL : natToDec (-n).toNat with
    | nil => exact absurd hL (natToDec_spec _).1
    | cons c t =>
      have hall : (c :: t).all isDigitCh = true := by
        have := (natToDec_spec (-n).toNat).2.1
        rwa [hL] at this
      have hval : decVal (c :: t) = (-n).toNat := by
        have := decVal_natToDec (-n).toNat
        rwa [hL] at this
      have hcast : (((-n).toNat : Nat) : Int) = -n := Int.toNat_of_nonneg (by omega)
      have hsign : ((Char.ofNat 45).toNat == 45) = true := by decide
      simp [goParseInt64, hsign, hall, hval, hcast, h1, h2]
  · push_neg at hn
    cases hL : natToDec n.toNat with
    | nil => exact absurd hL (natToDec_spec _).1
    | cons c t =>
      have hall : (c :: t).all isDigitCh = true := by
        have := (natToDec_spec n.toNat).2.1
        rwa [hL] at this
      have hcd : isDigitCh c = true := by
        simp only [List.all_cons, Bool.and_eq_true] at hall
        exact hall.1
      obtain ⟨h45, h43⟩ := digit_not_sign hcd
      have hval : decVal (c :: t) = n.toNat := by
        have := decVal_natToDec n.toNat
        rwa [hL] at this
      have hcast : ((n.toNat : Nat) : Int) = n := Int.toNat_of_nonneg hn
      simp [goParseInt64, h45, h43, hall, hval, hcast, h1, h2]

/-- A read whose next character is not punctuation falls through the
directive dispatch into the scalar scanner. -/
theorem read_scalar_step (fuel : Nat) (c : Char) (l : List Char)
    (hp : isPunct c = false) :
    readF (fuel + 1) false ⟨c :: l, []⟩
      = .ok ((readScalar (c :: l)).1, ⟨(readScalar (c :: l)).2, []⟩) := by
  obtain ⟨h0, hw, h39, h94, h36, h40, _, h59⟩ := not_punct_facts hp
  simp only [readF]
  rw [skipWC_noop l h0 hw h59]
  simp [h0, h39, h94, h36, h40]

/-- A read on an opening parenthesis enters the list reader. -/
theorem read_paren_step (fuel : Nat) (l : List Char) :
    readF (fuel + 1) false ⟨'(' :: l, []⟩ = readF fuel true ⟨l, []⟩ := by
  have h0 : (('(').toNat == 0) = false := by decide
  have hw : isWhite '(' = false := by decide
  have h59 : (('(').toNat == 59) = false := by decide
  have h39 : (('(').toNat == 39) = false := by decide
  have h94 : (('(').toNat == 94) = false := by decide
  have h36 : (('(').toNat == 36) = false := by decide
  have h40 : (('(').toNat == 40) = true := by decide
  simp only [readF]
  rw [skipWC_noop l h0 hw h59]
  simp [h0, h39, h94, h36, h40]

/-- The list reader on a closing parenthesis with no pending read-ahead
yields nil. -/
theorem readList_close_step (fuel : Nat) (l : List Char) :
    readF (fuel + 1) true ⟨')' :: l, []⟩ = .ok (Obj.nil, ⟨l, []⟩) := by
  have h0 : ((')').toNat == 0) = false := by decide
  have hw : isWhite ')' = false := by decide
  have h59 : ((')').toNat == 59) = false := by decide
  have h41 : ((')').toNat == 41) = true := by decide
  simp only [readF]
  rw [skipWC_noop l h0 hw h59]
  simp [h41]

/-- The list reader skips a leading space before looking for the closing
parenthesis. -/
theorem readList_space (fuel : Nat) (l : List Char) :
    readF (fuel + 1) true ⟨' ' :: l, []⟩ = readF (fuel + 1) true ⟨l, []⟩ := by
  simp only [readF]
  rw [skipWC_space]

/-- The list reader on a non-parenthesis element reads the element and then
the remaining list. -/
theorem readList_elem_step (fuel : Nat) (c : Char) (l : List Char)
    (h41 : (c.toNat == 41) = false) (h0 : (c.toNat == 0) = false)
    (hw : isWhite c = false) (h59 : (c.toNat == 59) = false) :
    readF (fuel + 1) true ⟨c :: l, []⟩
      = match readF fuel false ⟨c :: l, []⟩ with
        | .error e => .error e
        | .ok (first, s2) =>
          match readF fuel true s2 with
          | .error e => .error e
          | .ok (second, s3) => .ok (Obj.pair first second, s3) := by
  simp only [readF]
  rw [skipWC_noop l h0 hw h59]
  simp [h41]

/-- The first character written for a reader-producible object: an opening
parenthesis for nil and lists, a non-punctuation character for atoms and
numbers; in all cases the list reader neither closes on it nor skips it. -/
theorem printVal_head (v : Obj) (h : goodVal v = true) :
    ∃ c t, printF false v = c :: t
      ∧ (c.toNat == 0) = false ∧ isWhite c = false
      ∧ (c.toNat == 59) = false ∧ (c.toNat == 41) = false := by
  cases v with
  | nil => exact ⟨'(', [')'], rfl, by decide, by decide, by decide, by decide⟩
  | atom s =>
    simp only [goodVal, goodF, Bool.and_eq_true] at h
    obtain ⟨⟨hne, hall⟩, _⟩ := h
    cases hL : s.toList with
    | nil => rw [hL] at hne; simp at hne
    | cons c t =>
      have hc : isPunct c = false := by
        rw [hL] at hall
        simp only [List.all_cons, Bool.and_eq_true] at hall
        simpa using hall.1
      obtain ⟨h0, hw, _, _, _, _, h41, h59⟩ := not_punct_facts hc
      exact ⟨c, t, by simp only [printF]; exact hL, h0, hw, h59, h41⟩
  | number n =>
    obtain ⟨c, t, hI, hc⟩ := intToDec_head n
    obtain ⟨h0, hw, _, _, _, _, h41, h59⟩ := not_punct_facts hc
    exact ⟨c, t, by simp only [printF]; exact hI, h0, hw, h59, h41⟩
  | pair a d =>
    exact ⟨'(', printF false a ++ printF true d, rfl, by decide, by decide,
      by decide, by decide⟩
  | closure a d => simp [goodVal, goodF] at h
  | prim p => simp [goodVal, goodF] at h

/-- The printed tail of a reader-producible list starts with a punctuation
character (a space or the closing parenthesis), so it terminates a running
scalar token. -/
theorem printTail_headPunct (d : Obj) (h : goodTail d = true) (rest : List Char) :
    headPunct (printF true d ++ rest) = true := by
  cases d with
  | nil => simp [printF, headPunct]; decide
  | pair a dd => simp [printF, headPunct]; decide
  | atom s => simp [goodTail, goodF] at h
  | number n => simp [goodTail, goodF] at h
  | closure a dd => simp [goodTail, goodF] at h
  | prim p => simp [goodTail, goodF] at h

/-- The scalar scanner on a printed token followed by a terminated rest
consumes exactly the token. -/
theorem readScalar_exact (l rest : List Char)
    (hall : l.all (fun c => !isPunct c) = true) (hr : headPunct rest = true) :
    readScalar (l ++ rest)
      = ((match goParseInt64 l with
          | some n => Obj.number n
          | none => Obj.atom (String.mk l)), rest) := by
  unfold readScalar
  have hmem : ∀ a ∈ l, (fun c => !isPunct c) a = true := by
    simpa [List.all_eq_true] using hall
  rw [List.takeWhile_append_of_pos hmem, List.dropWhile_append_of_pos hmem]
  rw [takeWhile_headPunct hr, dropWhile_headPunct hr, List.append_nil]
  cases hP : goParseInt64 l <;> simp [hP]

/-- Reading back the printed form: a reader-producible value prints to text
that one read (with enough fuel) consumes entirely, returning the same value
and leaving exactly the terminated rest, and a reader-producible list tail
prints to text that the list reader turns back into the same tail. -/
theorem readPrint (N : Nat) :
    (∀ v rest fuel, osize v ≤ N → goodVal v = true → headPunct rest = true →
        2 * osize v + 2 ≤ fuel →
        readF fuel false ⟨printF false v ++ rest, []⟩ = .ok (v, ⟨rest, []⟩))
    ∧ (∀ t rest fuel, osize t ≤ N → goodTail t = true → headPunct rest = true →
        2 * osize t + 2 ≤ fuel →
        readF fuel true ⟨printF true t ++ rest, []⟩ = .ok (t, ⟨rest, []⟩)) := by
  induction N with
  | zero =>
    constructor <;>
      · intro v rest fuel h1 _ _ _
        have := osize_pos v
        omega
  | succ N ih =>
    obtain ⟨ihV, ihT⟩ := ih
    constructor
    · intro v rest fuel h1 h2 h3 h4
      have hop := osize_pos v
      obtain ⟨f, rfl⟩ : ∃ f, fuel = f + 1 + 1 := ⟨fuel - 2, by omega⟩
      cases v with
      | nil =>
        show readF (f + 1 + 1) false ⟨'(' :: (')' :: rest), []⟩ = _
        rw [read_paren_step (f + 1)]
        exact readList_close_step f rest
      | atom s =>
        simp only [goodVal, goodF, Bool.and_eq_true] at h2
        obtain ⟨⟨hne, hall⟩, hparse⟩ := h2
        cases hL : s.toList with
        | nil => rw [hL] at hne; simp at hne
        | cons c t =>
          have hc : isPunct c = false := by
            rw [hL] at hall
            simp only [List.all_cons, Bool.and_eq_true] at hall
            simpa using hall.1
          have hIn : printF false (.atom s) ++ rest = c :: (t ++ rest) := by
            show s.toList ++ rest = _
            rw [hL]
            rfl
          rw [hIn, read_scalar_step (f + 1) c (t ++ rest) hc]
          have hnone : goParseInt64 s.toList = none := Option.isNone_iff_eq_none.mp hparse
          have hsc : readScalar (c :: (t ++ rest)) = (Obj.atom s, rest) := by
            rw [← List.cons_append, ← hL,
              readScalar_exact s.toList rest hall h3, hnone, string_mk_toList]
          rw [hsc]
      | number n =>
        simp only [goodVal, goodF, Bool.and_eq_true, decide_eq_true_eq] at h2
        obtain ⟨hr1, hr2⟩ := h2
        obtain ⟨c, t, hI, hc⟩ := intToDec_head n
        have hIn : printF false (.number n) ++ rest = c :: (t ++ rest) := by
          show intToDec n ++ rest = _
          rw [hI]
          rfl
        rw [hIn, read_scalar_step (f + 1) c (t ++ rest) hc]
        have hsc : readScalar (c :: (t ++ rest)) = (Obj.number n, rest) := by
          rw [← List.cons_append, ← hI,
            readScalar_exact (intToDec n) rest (intToDec_all_not_punct n) h3,
            parse_intToDec n hr1 hr2]
        rw [hsc]
      | pair a d =>
        simp only [goodVal, goodF, Bool.and_eq_true] at h2
        obtain ⟨hga, hgd⟩ := h2
        simp only [osize] at h1 h4
        have hopa := osize_pos a
        have hopd := osize_pos d
        have hIn : printF false (.pair a d) ++ rest
            = '(' :: (printF false a ++ (printF true d ++ rest)) := by
          simp [printF, List.append_assoc]
        rw [hIn, read_paren_step (f + 1)]
        obtain ⟨c, tt, hPr, h0, hw, h59, h41⟩ := printVal_head a hga
        have hM : printF false a ++ (printF true d ++ rest)
            = c :: (tt ++ (printF true d ++ rest)) := by
          rw [hPr]
          rfl
        rw [hM, readList_elem_step f c (tt ++ (printF true d ++ rest)) h41 h0 hw h59,
          hM.symm, ihV a (printF true d ++ rest) f (by omega) hga
            (printTail_headPunct d hgd rest) (by omega)]
        dsimp only
        rw [ihT d rest f (by omega) hgd h3 (by omega)]
      | closure b e => simp [goodVal, goodF] at h2
      | prim p => simp [goodVal, goodF] at h2
    · intro t rest fuel h1 h2 h3 h4
      have hop := osize_pos t
      obtain ⟨f, rfl⟩ : ∃ f, fuel = f + 1 := ⟨fuel - 1, by omega⟩
      cases t with
      | nil =>
        show readF (f + 1) true ⟨')' :: rest, []⟩ = _
        exact readList_close_step f rest
      | pair a d =>
        simp only [goodTail, goodF, Bool.and_eq_true] at h2
        obtain ⟨hga, hgd⟩ := h2
        simp only [osize] at h1 h4
        have hopa := osize_pos a
        have hopd := osize_pos d
        have hIn : printF true (.pair a d) ++ rest
            = ' ' :: (printF false a ++ (printF true d ++ rest)) := by
          simp [printF, List.append_assoc]
        rw [hIn, readList_space f]
        obtain ⟨c, tt, hPr, h0, hw, h59, h41⟩ := printVal_head a hga
        have hM : printF false a ++ (printF true d ++ rest)
            = c :: (tt ++ (printF true d ++ rest)) := by
          rw [hPr]
          rfl
        rw [hM, readList_elem_step f c (tt ++ (printF true d ++ rest)) h41 h0 hw h59,
          hM.symm, ihV a (printF true d ++ rest) f (by omega) hga
            (printTail_headPunct d hgd rest) (by omega)]
        dsimp only
        rw [ihT d rest f (by omega) hgd h3 (by omega)]
      | atom s => simp [goodTail, goodF] at h2
      | number n => simp [goodTail, goodF] at h2
      | closure b e => simp [goodTail, goodF] at h2
      | prim p => simp [goodTail, goodF] at h2

/-- The int64 wrapping is reading the low 64-bit pattern back as signed. -/
theorem wrap64_eq_toS64 (n : Int) : wrap64 n = toS64 (toU64 n) := by
  unfold wrap64 toS64 toU64
  simp only [two63, two64, two63N]
  split_ifs with h <;> omega

/-- The pattern of a wrapped left shift is the logically shifted pattern. -/
theorem goLsh_pattern (a : Int) (s : Nat) :
    wrap64 (a * 2 ^ s) = toS64 ((toU64 a * 2 ^ s) % two64N) := by
  rw [wrap64_eq_toS64]
  have key : toU64 (a * 2 ^ s) = (toU64 a * 2 ^ s) % two64N := by
    unfold toU64
    have h0 : (0 : Int) ≤ a % two64 := Int.emod_nonneg a (by norm_num [two64])
    have h1 : (0 : Int) ≤ (a * 2 ^ s) % two64 := Int.emod_nonneg _ (by norm_num [two64])
    rw [← Nat.cast_inj (R := Int)]
    push_cast [Int.toNat_of_nonneg h0, Int.toNat_of_nonneg h1]
    have h2 : ((two64N : Nat) : Int) = two64 := by norm_num [two64N, two64]
    rw [h2]
    conv_lhs => rw [Int.mul_emod]
    conv_rhs => rw [Int.mul_emod, Int.emod_emod_of_dvd a dvd_rfl]
  rw [key]

/-- Floor division of an in-range int64 by 2^s is the arithmetic shift: the
pattern shifted right with the vacated high bits copied from the sign. -/
theorem goRsh_pattern (a : Int) (s : Nat) (ha1 : -two63 ≤ a) (ha2 : a < two63)
    (hs : s < 64) :
    Int.fdiv a (2 ^ s)
      = toS64 ((toU64 a >>> s) + (if a < 0 then two64N - 2 ^ (64 - s) else 0)) := by
  have hp : (0 : Int) < 2 ^ s := by positivity
  rw [Int.fdiv_eq_ediv _ (le_of_lt hp), Nat.shiftRight_eq_div_pow]
  by_cases hneg : a < 0
  · rw [if_pos hneg]
    have hu : toU64 a = (a + two64).toNat := by
      unfold toU64
      congr 1
      simp only [two64, two63] at *
      omega
    have hpow : (two64 : Int) = 2 ^ (64 - s) * 2 ^ s := by
      rw [← pow_add]
      have he : 64 - s + s = 64 := by omega
      rw [he]
      norm_num [two64]
    have hdiv : ((a + two64) / 2 ^ s : Int) = a / 2 ^ s + 2 ^ (64 - s) := by
      conv_lhs => rw [hpow]
      exact Int.add_mul_ediv_right a (2 ^ (64 - s)) (ne_of_gt hp)
    have h1 : (1 : Int) ≤ 2 ^ s := by
      exact_mod_cast Nat.one_le_two_pow (n := s)
    have hlow : -two63 ≤ a / 2 ^ s := by
      rw [Int.le_ediv_iff_mul_le hp]
      have h2 : two63 * 1 ≤ two63 * 2 ^ s :=
        mul_le_mul_of_nonneg_left h1 (by norm_num [two63])
      nlinarith
    have hhi : a / 2 ^ s < 0 := Int.ediv_neg' hneg hp
    have hsub : (2 : Nat) ^ (64 - s) ≤ two64N := by
      calc (2 : Nat) ^ (64 - s) ≤ 2 ^ 64 := Nat.pow_le_pow_right (by norm_num) (by omega)
        _ = two64N := by norm_num [two64N]
    have hcast : ((a + two64).toNat : Int) = a + two64 := by
      simp only [two64, two63] at *
      omega
    have htot : (((a + two64).toNat / 2 ^ s + (two64N - 2 ^ (64 - s)) : Nat) : Int)
        = a / 2 ^ s + two64 := by
      push_cast [hsub]
      rw [hcast, hdiv]
      have h2 : ((two64N : Nat) : Int) = two64 := by norm_num [two64N, two64]
      rw [h2]
      ring
    rw [hu]
    unfold toS64
    split_ifs with hlt
    · exfalso
      have hge : ((( (a + two64).toNat / 2 ^ s + (two64N - 2 ^ (64 - s))) : Nat) : Int)
          < (two63N : Nat) := by exact_mod_cast hlt
      rw [htot] at hge
      have h2 : ((two63N : Nat) : Int) = two63 := by norm_num [two63N, two63]
      rw [h2] at hge
      simp only [two63, two64] at *
      omega
    · rw [htot]
      ring
  · rw [if_neg hneg, Nat.add_zero]
    have h0 : 0 ≤ a := not_lt.mp hneg
    have hu : toU64 a = a.toNat := by
      unfold toU64
      congr 1
      simp only [two64, two63] at *
      omega
    rw [hu]
    unfold toS64
    have hc : ((a.toNat / 2 ^ s : Nat) : Int) = a / 2 ^ s := by
      push_cast [Int.toNat_of_nonneg h0]
      rfl
    have hlt : a.toNat / 2 ^ s < two63N := by
      apply lt_of_le_of_lt (Nat.div_le_self _ _)
      simp only [two63N, two63] at *
      omega
    rw [if_pos hlt, hc]

/-- C2: the claim calls both shifts logical, zero-filling even for negative
a under the right shift.  The right shift of Go int64 values is arithmetic:
with a = -1 on the stack below b = 1, the primitive pushes -1, whereas the
zero-filling shift of the 64-bit pattern of -1 by one bit is 2^63 - 1. -/
theorem claim_C2_counterexample :
    primStep 1 .rsh .nil ⟨.pair (.number 1) (.pair (.number (-1)) .nil), ⟨[], []⟩, []⟩
      = .ok (.nil, ⟨.pair (.number (-1)) .nil, ⟨[], []⟩, []⟩)
    ∧ specLogicalRsh (-1) 1 = two63 - 1
    ∧ (-1 : Int) ≠ two63 - 1 := by
  refine ⟨by decide, by decide, by decide⟩

/-- C2 (amended): for operands b (popped first) and a (popped second), with a
in int64 range and 0 ≤ b < 64, the left-shift primitive pushes the int64
whose 64-bit pattern is the pattern of a logically shifted left by b bits,
and the right-shift primitive pushes the int64 whose pattern is the pattern
of a shifted right by b bits with the vacated high bits filled with copies
of the sign bit (an arithmetic shift, zero-filling only for nonnegative a). -/
theorem claim_C2 (fuel : Nat) (a b : Int) (rest env : Obj) (r : RState) (o : List Char)
    (ha1 : -two63 ≤ a) (ha2 : a < two63) (hb1 : 0 ≤ b) (hb2 : b < 64) :
    primStep fuel .lsh env ⟨.pair (.number b) (.pair (.number a) rest), r, o⟩
      = .ok (env, ⟨.pair (.number (toS64 ((toU64 a * 2 ^ b.toNat) % two64N))) rest, r, o⟩)
    ∧ primStep fuel .rsh env ⟨.pair (.number b) (.pair (.number a) rest), r, o⟩
      = .ok (env, ⟨.pair (.number (toS64 ((toU64 a >>> b.toNat)
            + (if a < 0 then two64N - 2 ^ (64 - b.toNat) else 0)))) rest, r, o⟩) := by
  have hu : goUint64 b = b.toNat := by
    unfold goUint64
    congr 1
    simp only [two64] at *
    omega
  have hbn : b.toNat < 64 := by omega
  constructor
  · simp [primStep, popObj, objToInt64, except_bind_ok, goLsh, hu,
      goLsh_pattern a b.toNat]
  · simp [primStep, popObj, objToInt64, except_bind_ok, goRsh, hu,
      goRsh_pattern a b.toNat ha1 ha2 hbn]

/-- Witness for C2 (amended) at a = -8, b = 2: the left shift pushes -32 and
the right shift pushes -2 (sign-filled), matching the pattern computations. -/
theorem claim_C2_witness :
    primStep 1 .lsh .nil ⟨.pair (.number 2) (.pair (.number (-8)) .nil), ⟨[], []⟩, []⟩
      = .ok (.nil, ⟨.pair (.number (-32)) .nil, ⟨[], []⟩, []⟩)
    ∧ primStep 1 .rsh .nil ⟨.pair (.number 2) (.pair (.number (-8)) .nil), ⟨[], []⟩, []⟩
      = .ok (.nil, ⟨.pair (.number (-2)) .nil, ⟨[], []⟩, []⟩) :=
  ⟨((claim_C2 1 (-8) 2 .nil .nil ⟨[], []⟩ [] (by decide) (by decide) (by decide)
      (by decide)).1).trans (by decide),
   ((claim_C2 1 (-8) 2 .nil .nil ⟨[], []⟩ [] (by decide) (by decide) (by decide)
      (by decide)).2).trans (by decide)⟩

/-- C3: the claim asserts that EnvFind falls back to text equality.  The
fallback of the source compares the dereferenced Obj structs field by field,
i.e. the payload pointers; a binding key that is a distinct atom object with
a distinct Atom payload cell but equal text ("x" in cell 10 versus "x" in
cell 20) is not matched, and the scan falls through to the undefined-symbol
failure instead of returning the binding's value. -/
theorem claim_C3_counterexample :
    (AtomObj.mk 2 (mkAtomVal 20) "x").text = (AtomObj.mk 1 (mkAtomVal 10) "x").text
    ∧ (AtomObj.mk 2 (mkAtomVal 20) "x").addr ≠ (AtomObj.mk 1 (mkAtomVal 10) "x").addr
    ∧ envFindA [(AtomObj.mk 1 (mkAtomVal 10) "x", 42)] (AtomObj.mk 2 (mkAtomVal 20) "x")
        = none := by
  decide

/-- C3 (amended): for a binding whose key is an atom object distinct from the
lookup key (different address), the structural-equality fallback matches the
binding exactly when the two dereferenced Obj structs are equal - that is,
when both Obj structs point at the very same Atom payload cell; the texts
behind distinct payload cells are never compared. -/
theorem claim_C3 (k key : AtomObj) (v : Nat) (hne : key.addr ≠ k.addr) :
    envFindA [(k, v)] key = some v ↔ key.val = k.val := by
  rcases eq_or_ne key.val k.val with h | h <;> simp [envFindA, hne, h]

/-- Witness for C3 (amended): two atom objects at addresses 2 and 1 sharing
the Atom payload cell 10 are matched by the fallback. -/
theorem claim_C3_witness :
    (AtomObj.mk 2 (mkAtomVal 10) "x").addr ≠ (AtomObj.mk 1 (mkAtomVal 10) "x").addr
    ∧ envFindA [(AtomObj.mk 1 (mkAtomVal 10) "x", 42)] (AtomObj.mk 2 (mkAtomVal 10) "x")
        = some 42 :=
  ⟨by decide,
   (claim_C3 (AtomObj.mk 1 (mkAtomVal 10) "x") (AtomObj.mk 2 (mkAtomVal 10) "x") 42
      (by decide)).mpr (by decide)⟩

/-- C4: starting from any stack, pushing Number(3), then Number(4), then
invoking the subtraction primitive leaves Number(-1) on top (the first-popped
operand is the subtrahend b = 4, so a - b = 3 - 4 = -1) with the rest of the
stack, the reader state and the output unchanged. -/
theorem claim_C4 (fuel : Nat) (s env : Obj) (r : RState) (o : List Char) :
    primStep fuel .sub env ⟨.pair (.number 4) (.pair (.number 3) s), r, o⟩
      = .ok (env, ⟨.pair (.number (-1)) s, r, o⟩) := by
  simp [primStep, popObj, objToInt64, except_bind_ok]
  decide

/-- C5: with exactly the two characters of a caret directive in the buffer
and an empty read-ahead queue, three successive reads yield the interned
atoms quote, x and push in that order; the first read leaves the two
remaining objects queued with the buffer exhausted, and each further read
drains the queue before consulting the buffer. -/
theorem claim_C5 :
    read 5 ⟨['^', 'x'], []⟩ = .ok (Obj.atom "quote", ⟨[], [Obj.atom "x", Obj.atom "push"]⟩)
    ∧ read 5 ⟨[], [Obj.atom "x", Obj.atom "push"]⟩
        = .ok (Obj.atom "x", ⟨[], [Obj.atom "push"]⟩)
    ∧ read 5 ⟨[], [Obj.atom "push"]⟩ = .ok (Obj.atom "push", ⟨[], []⟩) := by
  decide

/-- C6: print-read round trip.  The objects the reader produces from
well-formed input are exactly the reader-producible values (numbers in int64
range, atoms with nonempty punctuation-free non-numeric text, and proper
lists of these; ill-formed input such as a stray closing parenthesis or a
dangling directive is what produces the remaining empty-text atoms).  For
every such value, feeding the printer's rendering back to the reader returns
the identical value of the deep embedding - which on Number and Atom leaves
is ObjEqual (value equality for numbers, interned-instance identity for
atoms) and on Pair/Nil structure is a structure-preserving reproduction -
consuming the entire rendering. -/
theorem claim_C6 (v : Obj) (fuel : Nat) (hv : goodVal v = true)
    (hf : 2 * osize v + 2 ≤ fuel) :
    read fuel ⟨printRec v, []⟩ = .ok (v, ⟨[], []⟩) := by
  have h := (readPrint (osize v)).1 v [] fuel le_rfl hv rfl hf
  simpa [read, printRec] using h

/-- Witness for C6: the two-element list of the atoms foo and -12x prints as
their parenthesized rendering, and reading it back returns the same list. -/
theorem claim_C6_witness :
    goodVal (.pair (.atom "foo") (.pair (.atom "-12x") .nil)) = true
    ∧ read 20 ⟨printRec (.pair (.atom "foo") (.pair (.atom "-12x") .nil)), []⟩
        = .ok (.pair (.atom "foo") (.pair (.atom "-12x") .nil), ⟨[], []⟩) :=
  ⟨by decide,
   claim_C6 (.pair (.atom "foo") (.pair (.atom "-12x") .nil)) 20 (by decide) (by decide)⟩

/-- C7: in every computation list, the interned quote atom followed by an
item pushes that item literally - whatever object it is, unevaluated - and
consumes both, the loop continuing with the remaining items under the same
environment; the interned quote atom as the last item is the fatal
dangling-quote error. -/
theorem claim_C7 (fuel : Nat) (x rest env : Obj) (st : IState) :
    computeEnv (fuel + 1) (.pair (.atom "quote") (.pair x rest)) env st
      = computeEnv fuel rest env { st with stack := .pair x st.stack }
    ∧ computeEnv (fuel + 1) (.pair (.atom "quote") .nil) env st = .error .danglingQuote := by
  constructor <;> simp [computeEnv, execF, except_map_error]

/-- C8: invoking an atom bound to a closure runs the closure body in the
captured environment by a nested computation whose rebindings are invisible
to the caller: the remaining items of the caller's list are computed against
the caller's original environment reference, whatever bindings the body has
popped into its own. -/
theorem claim_C8 (g : Nat) (aname : String) (body cenv env rest : Obj) (st : IState)
    (hq : aname ≠ "quote")
    (hf : envFind env (.atom aname) = .ok (.closure body cenv)) :
    computeEnv (g + 2) (.pair (.atom aname) rest) env st
      = match computeEnv g body cenv st with
        | .error e => .error e
        | .ok st2 => computeEnv (g + 1) rest env st2 := by
  rcases hE : execF g false body cenv st with e | r <;>
    simp [computeEnv, execF, hq, hf, hE, except_map_ok, except_map_error]

/-- Witness for C8: the environment binds f to a closure whose body quotes
the number 7; computing (f) pushes 7 and ends with the caller's environment
untouched. -/
theorem claim_C8_witness :
    envFind (.pair (.pair (.atom "f") (.closure (.pair (.atom "quote") (.pair (.number 7) .nil)) .nil)) .nil)
        (.atom "f")
      = .ok (.closure (.pair (.atom "quote") (.pair (.number 7) .nil)) .nil)
    ∧ computeEnv 4 (.pair (.atom "f") .nil)
        (.pair (.pair (.atom "f") (.closure (.pair (.atom "quote") (.pair (.number 7) .nil)) .nil)) .nil)
        ⟨.nil, ⟨[], []⟩, []⟩
      = .ok ⟨.pair (.number 7) .nil, ⟨[], []⟩, []⟩ :=
  ⟨by decide,
   by
    rw [claim_C8 2 "f" (.pair (.atom "quote") (.pair (.number 7) .nil)) .nil
        (.pair (.pair (.atom "f") (.closure (.pair (.atom "quote") (.pair (.number 7) .nil)) .nil)) .nil)
        .nil ⟨.nil, ⟨[], []⟩, []⟩ (by decide) (by decide)]
    decide⟩

/-- C9: the tag primitive pops any object and pushes the Number carrying its
variant tag, and the tags are the fixed ids 0 for Nil, 1 for Atom, 2 for
Number, 3 for Pair, 4 for Closure, 5 for Primitive. -/
theorem claim_C9 (fuel : Nat) (x s env : Obj) (r : RState) (o : List Char) :
    primStep fuel .tag env ⟨.pair x s, r, o⟩
      = .ok (env, ⟨.pair (.number (tagOfObj x)) s, r, o⟩)
    ∧ tagOfObj .nil = 0 ∧ (∀ t, tagOfObj (.atom t) = 1) ∧ (∀ n, tagOfObj (.number n) = 2)
    ∧ (∀ a d, tagOfObj (.pair a d) = 3) ∧ (∀ a d, tagOfObj (.closure a d) = 4)
    ∧ (∀ p, tagOfObj (.prim p) = 5) := by
  refine ⟨?_, rfl, fun _ => rfl, fun _ => rfl, fun _ _ => rfl, fun _ _ => rfl, fun _ => rfl⟩
  simp [primStep, popObj, except_bind_ok]

/-- C10: a top-level read whose next character is a closing parenthesis does
not fail: no case of the dispatch matches, readScalar scans an empty token
(the parenthesis is punctuation), the empty token does not parse as a number,
and the interned empty-text atom is returned with the cursor not advanced. -/
theorem claim_C10 (rest : List Char) (fuel : Nat) :
    read (fuel + 1) ⟨')' :: rest, []⟩ = .ok (Obj.atom "", ⟨')' :: rest, []⟩) := by
  have e0 : ((')').toNat == 0) = false := by decide
  have e39 : ((')').toNat == 39) = false := by decide
  have e94 : ((')').toNat == 94) = false := by decide
  have e36 : ((')').toNat == 36) = false := by decide
  have e40 : ((')').toNat == 40) = false := by decide
  have e59 : ((')').toNat == 59) = false := by decide
  have ew : isWhite ')' = false := by decide
  have ep : isPunct ')' = true := by decide
  have h1 : skipWC (')' :: rest) = ')' :: rest := by
    simp [skipWC, skipWCAux, e0, e59, ew]
  simp [read, readF, h1, e0, e39, e94, e36, e40, readScalar, ep, goParseInt64]

end Forsp
